import Mathlib

/-!
Verification development for the GoldenDict remote-article fetch engine
(mediawiki.cc / forvo.cc dictionary sources).

The definitions below are a shallow embedding of the C++ sources:

* `requestFinished`, `drainGo`, `markCompleted` embed
  `MediaWikiArticleRequest::requestFinished`: the completion callback marks
  the matching `netReplies` entry finished in place, then pops entries from
  the front while the front entry is finished, processing each popped reply.
* `doAddQuery`, `enqueue` embed `MediaWikiArticleRequest::doAddQuery` and
  `SuffixAddingArticleRequest::doAddQuery` (the subclass that speculatively
  queries `word + preferableSuffix` and records a `Replacement`).
* `handleOutcome` embeds the body of the drain loop: transport error and XML
  parse error record an error string; a found text node runs
  `preprocessArticle` (for `RedirectingArticleRequest`: if the redirect link
  distinction is found, prepend a query for the link target and discard the
  body), then `processArticle`/`appendArticleToData`; finally `replyHandled`
  (for `SuffixAddingArticleRequest`: on a failed speculative reply, prepend
  a query for the original word).
* `wsCancel`, `wsTimerEvent` embed `MediaWikiWordSearchRequest::cancel` and
  `::timerEvent` (the debounce grace window).
* `mwGetArticle` / `mwPrefixMatch` embed `MediaWikiDictionary::getArticle` /
  `::prefixMatch` with the 80-character short circuit.
* `forvoInitReplies` embeds the `ForvoArticleRequest` constructor.
* `fixedArticleStage`, `absIndexPhpStage`, `audioStage`,
  `addSchemeToSrcStage`, `fixRootSrcStage`, `stripWikiStage`,
  `underscoreStage`, `fileLinkStage` embed the rewrite stages of
  `MediaWikiArticleRequest::processArticle` (and `RootBasedUrlFixer` and
  `underscoresToSpacesInLinks`).
-/

namespace GoldenDict

/-- Outcome of one network reply, as inspected by the drain loop of
`MediaWikiArticleRequest::requestFinished`: transport error
(`netReply->error() != NoError`), XML parse error (`!dd.setContent(...)`),
missing `api/parse` node or `revid == "0"`, missing `text` node, or a text
node whose contents is the article body. -/
inductive Outcome where
  | transportError (msg : String)
  | parseError (msg : String) (line col : Nat)
  | noParseNodeOrZeroRevid
  | noTextNode
  | text (body : String)
deriving DecidableEq

/-- One entry of the `netReplies` list: the reply handle (modelled as a
numeric id standing for the `QNetworkReply *`), the word it was issued for,
and `result = none` while pending (`second == false`), `some o` once the
transport completed it with outcome `o`. -/
structure QEntry where
  id : Nat
  word : String
  result : Option Outcome
deriving DecidableEq

/-- Static configuration of a concrete request class.
`findLink b` models `findWikiLink(b, redirectLinkDistinction)` of
`RedirectingArticleRequest::preprocessArticle`: `some w` when the
distinction is non-empty and the article contains the distinctive link with
target `w`, `none` otherwise (for classes without a distinction it is
constantly `none`).  `preferableSuffix` is `some s` only for
`SuffixAddingArticleRequest`.  `rewriteBody` abstracts the composite
cosmetic rewriting applied to an accepted body (`preprocessArticle` edits,
`processArticle`, and the `<div class="mwiki">` wrapping of
`appendArticleToData`); its string-level stages are embedded separately. -/
structure ReqConfig where
  findLink : String → Option String
  preferableSuffix : Option String
  rewriteBody : String → String

/-- State of one `MediaWikiArticleRequest`: the `netReplies` queue, the
bytes appended so far (one list element per appended article body), the
last recorded error string, the finished flag, a fresh-id counter for newly
created replies, and the `replacements` queue of
`SuffixAddingArticleRequest` (reply id paired with the original word). -/
structure ReqState where
  queue : List QEntry
  buffer : List String
  err : Option String
  finished : Bool
  nextId : Nat
  replacements : List (Nat × String)

/-- The accumulator threaded through the drain loop: everything of
`ReqState` except the queue itself. -/
structure DrainAcc where
  buffer : List String
  err : Option String
  nextId : Nat
  replacements : List (Nat × String)

/-- The error string built for an XML parse failure:
`tr("XML parse error: %1 at %2,%3").arg(errorStr).arg(line).arg(column)`. -/
def xmlParseErrorString (msg : String) (line col : Nat) : String :=
  "XML parse error: " ++ msg ++ " at " ++ toString line ++ "," ++ toString col

/-- Processing of one popped reply inside the drain loop of
`requestFinished`.  Returns the updated accumulator and, when a new query
was pushed onto the front of `netReplies` (by
`RedirectingArticleRequest::prependQuery`, either from `preprocessArticle`
or from `SuffixAddingArticleRequest::replyHandled`), the new pending entry.
A transport error records `netReply->errorString()`; a parse error records
the formatted parse error (later errors overwrite earlier ones); a body
with a redirect link is discarded and a query for the link target is
prepended; otherwise the body is rewritten and appended to the data.
Afterwards `replyHandled(netReply, textFound)` runs: if this reply is the
front of `replacements` and no text was found, a query for the original
word is prepended. -/
def handleOutcome (cfg : ReqConfig) (a : DrainAcc) (rid : Nat) (o : Outcome) :
    DrainAcc × Option QEntry :=
  let step : DrainAcc × Bool × Option QEntry :=
    match o with
    | .transportError m => ({ a with err := some m }, false, none)
    | .parseError m ln col =>
        ({ a with err := some (xmlParseErrorString m ln col) }, false, none)
    | .noParseNodeOrZeroRevid => (a, false, none)
    | .noTextNode => (a, false, none)
    | .text b =>
        match cfg.findLink b with
        | some w =>
            ({ a with nextId := a.nextId + 1 }, true,
             some (⟨a.nextId, w, none⟩ : QEntry))
        | none =>
            ({ a with buffer := a.buffer ++ [cfg.rewriteBody b] }, true, none)
  match step with
  | (a1, textFound, pre1) =>
    match a1.replacements with
    | [] => (a1, pre1)
    | (fid, orig) :: rest =>
        if fid = rid then
          if textFound then ({ a1 with replacements := rest }, pre1)
          else ({ a1 with replacements := rest, nextId := a1.nextId + 1 },
                some (⟨a1.nextId, orig, none⟩ : QEntry))
        else (a1, pre1)

/-- The drain loop `while (netReplies.size() && netReplies.front().second)`:
pop the front entry while it is completed and process it.  A prepended
query is pending, so the loop stops right after any prepend. -/
def drainGo (cfg : ReqConfig) : DrainAcc → List QEntry → DrainAcc × List QEntry
  | a, [] => (a, [])
  | a, e :: rest =>
    match e.result with
    | none => (a, e :: rest)
    | some o =>
      match handleOutcome cfg a e.id o with
      | (a2, none) => drainGo cfg a2 rest
      | (a2, some pre) => (a2, pre :: rest)

/-- The search for the completed reply at the top of `requestFinished`:
mark the first entry whose reply handle matches as finished, recording the
outcome; `none` when no entry matches (`found == false`). -/
def markCompleted : List QEntry → Nat → Outcome → Option (List QEntry)
  | [], _, _ => none
  | e :: rest, rid, o =>
    if e.id = rid then some ({ e with result := some o } :: rest)
    else (markCompleted rest rid o).map (fun q => e :: q)

/-- `MediaWikiArticleRequest::requestFinished(r)`: return immediately when
already finished (cancelled); ignore a reply that is not in `netReplies`;
otherwise mark it completed, drain the ready front of the queue, and call
`finish()` when the queue has become empty. -/
def requestFinished (cfg : ReqConfig) (s : ReqState) (rid : Nat) (o : Outcome) :
    ReqState :=
  if s.finished then s
  else
    match markCompleted s.queue rid o with
    | none => s
    | some q =>
      match drainGo cfg ⟨s.buffer, s.err, s.nextId, s.replacements⟩ q with
      | (a, q2) =>
        { queue := q2, buffer := a.buffer, err := a.err,
          finished := q2.isEmpty, nextId := a.nextId,
          replacements := a.replacements }

/-- `MediaWikiArticleRequest::doAddQuery`: create the reply via
`createQuery(word)` and push a pending entry at the back of `netReplies`. -/
def enqueue (s : ReqState) (w : String) : ReqState :=
  { s with queue := s.queue ++ [⟨s.nextId, w, none⟩], nextId := s.nextId + 1 }

/-- The suffix test of `SuffixAddingArticleRequest::doAddQuery`:
`std::equal(word.end() - preferableSuffix.size(), word.end(),
preferableSuffix.begin())`.  The first iterator is well-defined only when
`preferableSuffix.size() <= word.size()`; otherwise it points before
`word.begin()` and the comparison reads out of bounds (undefined
behaviour), modelled as `none`. -/
def suffixCheckUB (word sfx : String) : Option Bool :=
  if sfx.length ≤ word.length then
    some (decide (word.data.drop (word.length - sfx.length) = sfx.data))
  else none

/-- The signed index (relative to `word.begin()`) of the first character
read by the suffix test above: `word.size() - preferableSuffix.size()`
computed on iterators, i.e. as a signed quantity. -/
def suffixCheckReadStart (wordLen sfxLen : Nat) : Int :=
  (wordLen : Int) - (sfxLen : Int)

/-- `doAddQuery(word)` of the concrete request class described by `cfg`:
without a preferable suffix, enqueue the word itself
(`MediaWikiArticleRequest` and `RedirectingArticleRequest`); with a
preferable suffix (`SuffixAddingArticleRequest`), enqueue the word when it
already ends with the suffix, and otherwise enqueue `word + suffix` and
record the replacement `(reply, word)`.  `none` when the suffix test is
undefined behaviour. -/
def doAddQuery (cfg : ReqConfig) (s : ReqState) (w : String) : Option ReqState :=
  match cfg.preferableSuffix with
  | none => some (enqueue s w)
  | some sfx =>
    match suffixCheckUB w sfx with
    | none => none
    | some true => some (enqueue s w)
    | some false =>
        some { enqueue s (w ++ sfx) with
               replacements := s.replacements ++ [(s.nextId, w)] }

/-- Sequence of `addQuery` calls, as issued by
`MediaWikiDictionary::getArticle` for the word and each alternate. -/
def addQueries (cfg : ReqConfig) : ReqState → List String → Option ReqState
  | s, [] => some s
  | s, w :: ws => (doAddQuery cfg s w).bind fun s2 => addQueries cfg s2 ws

/-- A freshly constructed request: empty queue and buffer, no error, not
finished. -/
def emptyReqState : ReqState := ⟨[], [], none, false, 0, []⟩

/-- Construction of a `MediaWikiArticleRequest` for `word` and `alts`:
`addQuery(word)` followed by `addQuery(alts[i])` for each alternate. -/
def mwArticleRequestInit (cfg : ReqConfig) (word : String) (alts : List String) :
    Option ReqState :=
  addQueries cfg emptyReqState (word :: alts)

/-- `MediaWikiArticleRequest::cancel()` calls `finish()`.  The body of
`Dictionary::Request::finish` is outside these sources; modelled from the
spec: a request "becomes Finished exactly once — either when the queue
empties or when explicitly cancelled", so `finish()` marks the request
finished and changes nothing else. -/
def mwCancel (s : ReqState) : ReqState := { s with finished := true }

/-- The object returned by `MediaWikiDictionary::getArticle`: either a
`DataRequestInstant(false)` for oversized words or a live article
request. -/
inductive ArticleHandle where
  | instant (hasData : Bool)
  | request (s : ReqState)

/-- Finished flag of the handle.  Modelled from the spec for the instant
case: an oversized word is "rejected immediately as Finished(no-data)". -/
def ArticleHandle.finished : ArticleHandle → Bool
  | .instant _ => true
  | .request s => s.finished

/-- The `hasAnyData` flag of the handle. -/
def ArticleHandle.hasAnyData : ArticleHandle → Bool
  | .instant hasData => hasData
  | .request s => !s.buffer.isEmpty

/-- The recorded error string of the handle. -/
def ArticleHandle.errorString : ArticleHandle → Option String
  | .instant _ => none
  | .request s => s.err

/-- Number of transport submissions made by the handle: an instant result
makes none; a live request made one `netMgr.get` per consumed id. -/
def ArticleHandle.submissions : ArticleHandle → Nat
  | .instant _ => 0
  | .request s => s.nextId

/-- `MediaWikiDictionary::getArticle`: words longer than 80 characters get
a `DataRequestInstant(false)` without any network call; otherwise a
request is constructed and one query per word is submitted. -/
def mwGetArticle (cfg : ReqConfig) (word : String) (alts : List String) :
    Option ArticleHandle :=
  if 80 < word.length then some (ArticleHandle.instant false)
  else (mwArticleRequestInit cfg word alts).map ArticleHandle.request

/-- State of one `MediaWikiWordSearchRequest`: whether the `netReply`
shared pointer still holds the transport reply, the `livedLongEnough` and
`isCancelling` flags, the finished flag, the collected matches and the
error string. -/
structure WordSearchState where
  netReply : Bool
  livedLongEnough : Bool
  isCancelling : Bool
  finished : Bool
  wordMatches : List String
  err : Option String
deriving DecidableEq

/-- A freshly constructed `MediaWikiWordSearchRequest`: the constructor
issues one `mgr.get` (so `netReply` is held), starts the 200 ms maturity
timer, and both flags are false. -/
def initWordSearch : WordSearchState :=
  ⟨true, false, false, false, [], none⟩

/-- `MediaWikiWordSearchRequest::cancel()`: set `isCancelling`, reset the
`netReply` pointer (releasing the transport reply) unconditionally, and
call `finish()` only when `livedLongEnough` is already set. -/
def wsCancel (s : WordSearchState) : WordSearchState :=
  let s1 := { s with isCancelling := true, netReply := false }
  if s1.livedLongEnough then { s1 with finished := true } else s1

/-- `MediaWikiWordSearchRequest::timerEvent`: kill the timer, set
`livedLongEnough`, and call `finish()` when a cancellation was recorded. -/
def wsTimerEvent (s : WordSearchState) : WordSearchState :=
  let s1 := { s with livedLongEnough := true }
  if s1.isCancelling then { s1 with finished := true } else s1

/-- The object returned by `MediaWikiDictionary::prefixMatch`: either a
`WordSearchRequestInstant()` for oversized words or a live word-search
request. -/
inductive SearchHandle where
  | instantEmpty
  | request (s : WordSearchState)
deriving DecidableEq

/-- Finished flag of the search handle.  Modelled from the spec for the
instant case: the oversized word is rejected immediately as finished. -/
def SearchHandle.finished : SearchHandle → Bool
  | .instantEmpty => true
  | .request s => s.finished

/-- The collected matches of the search handle. -/
def SearchHandle.matchList : SearchHandle → List String
  | .instantEmpty => []
  | .request s => s.wordMatches

/-- The error string of the search handle. -/
def SearchHandle.errorString : SearchHandle → Option String
  | .instantEmpty => none
  | .request s => s.err

/-- Number of transport submissions of the search handle: the instant
result makes none; the live request constructor makes exactly one. -/
def SearchHandle.submissions : SearchHandle → Nat
  | .instantEmpty => 0
  | .request _ => 1

/-- `MediaWikiDictionary::prefixMatch`: words longer than 80 characters
get a `WordSearchRequestInstant()` without any network call; otherwise a
live `MediaWikiWordSearchRequest` is constructed. -/
def mwPrefixMatch (word : String) : SearchHandle :=
  if 80 < word.length then SearchHandle.instantEmpty
  else SearchHandle.request initWordSearch

/-- The `netReplies` list built by the `ForvoArticleRequest` constructor:
it calls `addQuery(mgr, str)` for the primary word only — the loop over
the alternates is compiled out (`#if 0`, "Don't do alts for now"). -/
def forvoInitReplies (word : String) (_alts : List String) : List (String × Bool) :=
  [(word, false)]

/-- The whitespace class matched by `\\s` in a QRegExp, i.e.
`QChar::isSpace`: the control characters TAB..CR (U+0009-U+000D, so also
`\v` and `\f`), NEL (U+0085), and the Unicode separator characters
(category Zs: U+0020, U+00A0, U+1680, U+2000-U+200A, U+202F, U+205F,
U+3000; Zl: U+2028; Zp: U+2029). -/
def isQtWs (c : Char) : Bool :=
  let n := c.toNat
  decide ((9 <= n ∧ n <= 13) ∨ n = 0x20 ∨ n = 0x85 ∨ n = 0xA0 ∨ n = 0x1680 ∨
    (0x2000 <= n ∧ n <= 0x200A) ∨ n = 0x2028 ∨ n = 0x2029 ∨ n = 0x202F ∨
    n = 0x205F ∨ n = 0x3000)

/-- The ASCII whitespace class matched by `\\s` in QRegularExpression's
default PCRE mode (no Unicode-properties option): space and TAB..CR. -/
def isPcreWs (c : Char) : Bool :=
  let n := c.toNat
  decide ((9 <= n ∧ n <= 13) ∨ n = 0x20)

/-- Case-insensitive character comparison of `Qt::CaseInsensitive` regex
matching; `low` abstracts Qt's Unicode-aware `QChar::toLower`. -/
def charCI (low : Char → Char) (p c : Char) : Bool := low p == low c

/-- Case-insensitive prefix test. -/
def startsWithCI (low : Char → Char) : List Char → List Char → Bool
  | [], _ => true
  | _ :: _, [] => false
  | p :: ps, c :: cs => charCI low p c && startsWithCI low ps cs

/-- The index of the first occurrence of a character. -/
def indexOfChar : List Char → Char → Option Nat
  | [], _ => none
  | c :: rest, d => if c = d then some 0 else (indexOfChar rest d).map (fun k => k + 1)

/-- `QString::indexOf(ch, from)`: the first index `>= start` holding `d`. -/
def indexOfFrom (l : List Char) (d : Char) (start : Nat) : Option Nat :=
  (indexOfChar (l.drop start) d).map (fun k => start + k)

/-- Matcher for the trigger pattern of the link-prefix-stripping stage of
`processArticle`, the QRegExp `<a\\shref="/wiki/`: when the string starts
with the pattern, returns the remainder after the match. -/
def wikiPatAt : List Char → Option (List Char)
  | '<' :: 'a' :: c :: 'h' :: 'r' :: 'e' :: 'f' :: '=' :: '"' :: '/' :: 'w' :: 'i' :: 'k' :: 'i' :: '/' :: rest =>
      if isQtWs c then some rest else none
  | _ => none

/-- One pass of `articleString.replace(QRegExp("<a\\shref=\"/wiki/"),
"<a href=\"")`: scan left to right; at each match emit the replacement and
continue searching after it (Qt does not rescan the inserted text).  Fuel
recursion: each step consumes at least one input character, so `length`
fuel suffices. -/
def stripWikiGo : Nat → List Char → List Char
  | 0, l => l
  | _ + 1, [] => []
  | fuel + 1, c :: rest =>
    match wikiPatAt (c :: rest) with
    | some rest2 => ("<a href=\"").data ++ stripWikiGo fuel rest2
    | none => c :: stripWikiGo fuel rest

/-- The `/wiki/`-prefix-stripping stage of `processArticle`. -/
def stripWikiStage (l : List Char) : List Char := stripWikiGo l.length l

/-- Whether the string contains the trigger pattern of the
`/wiki/`-stripping stage anywhere. -/
def hasWikiTrig : List Char → Bool
  | [] => false
  | c :: rest => (wikiPatAt (c :: rest)).isSome || hasWikiTrig rest

/-- Whether `pat` is a prefix of the second list (character comparison, as
in `QString` substring search). -/
def startsWithChars : List Char → List Char → Bool
  | [], _ => true
  | _ :: _, [] => false
  | p :: ps, c :: cs => p = c && startsWithChars ps cs

/-- One pass of a plain `QString::replace(before, after)`: scan left to
right; at each occurrence of `pat` emit `rep` and continue searching after
the replaced text.  Fuel recursion as in `stripWikiGo`. -/
def replaceSubGo (pat rep : List Char) : Nat → List Char → List Char
  | 0, s => s
  | _ + 1, [] => []
  | fuel + 1, c :: rest =>
    if startsWithChars pat (c :: rest) then
      rep ++ replaceSubGo pat rep fuel ((c :: rest).drop pat.length)
    else c :: replaceSubGo pat rep fuel rest

/-- Plain substring replacement, `QString::replace(before, after)`. -/
def replaceSub (pat rep s : List Char) : List Char :=
  replaceSubGo pat rep s.length s

/-- Whether `pat` occurs as a substring. -/
def containsSubChars (pat : List Char) : List Char → Bool
  | [] => startsWithChars pat []
  | c :: rest => startsWithChars pat (c :: rest) || containsSubChars pat rest

/-- The stage `articleString.replace(" src=\"//", " src=\"" +
wikiUrl.scheme() + "://")` of `processArticle`. -/
def addSchemeToSrcStage (scheme s : List Char) : List Char :=
  replaceSub (" src=\"//").data ((" src=\"").data ++ scheme ++ ("://").data) s

/-- The stage `articleString.replace("src=\"/", "src=\"" +
wikiUrl.toString())` of `processArticle`. -/
def fixRootSrcStage (wikiUrlStr s : List Char) : List Char :=
  replaceSub ("src=\"/").data (("src=\"").data ++ wikiUrlStr) s

/-- `RootBasedUrlFixer::fixUrl`: an external link (containing "://") is
left alone; otherwise every ':' becomes "%3A", and a '#' found at index
`>= 1` (of the colon-replaced url) splits the url: the part after it, with
underscores encoded as "%5F", becomes a "?gdanchor=" query parameter. -/
def fixUrl (url : List Char) : List Char :=
  if containsSubChars ("://").data url then url
  else
    let u := url.flatMap (fun c => if c = ':' then ("%3A").data else [c])
    match indexOfFrom u '#' 1 with
    | none => u
    | some n =>
        u.take n ++ ("?gdanchor=").data ++
          (u.drop (n + 1)).flatMap (fun c => if c = '_' then ("%5F").data else [c])

/-- Matcher for the stage-1 trigger `<a\s+href="/` (the `linkPrefix`
QRegExp of `RootBasedUrlFixer::fixedArticle`) at the start of the list:
returns the matched text and the remainder. -/
def linkStartMatch (l : List Char) : Option (List Char × List Char) :=
  match l with
  | '<' :: 'a' :: rest =>
    let ws := rest.takeWhile isQtWs
    if ws.isEmpty then none
    else
      let rest2 := rest.drop ws.length
      if startsWithChars ("href=\"/").data rest2 then
        some ('<' :: 'a' :: (ws ++ ("href=\"/").data), rest2.drop 7)
      else none
  | _ => none

/-- One pass of `RootBasedUrlFixer::fixedArticle`: copy each matched link
opening `<a\s+href="/` verbatim, run `fixUrl` on the url up to the closing
quote, and continue scanning at the quote; when the quote is missing
(unterminated link) the loop breaks and the remainder is appended
unchanged.  Fuel recursion: each step consumes at least one character. -/
def fixedArticleGo : Nat → List Char → List Char
  | 0, l => l
  | _ + 1, [] => []
  | fuel + 1, c :: rest =>
    match linkStartMatch (c :: rest) with
    | some (pre, rest2) =>
        let url := rest2.takeWhile (fun x => x != '"')
        if url.length = rest2.length then pre ++ rest2
        else pre ++ fixUrl url ++ fixedArticleGo fuel (rest2.drop url.length)
    | none => c :: fixedArticleGo fuel rest

/-- The link-path-normalization stage, `RootBasedUrlFixer::fixedArticle`. -/
def fixedArticleStage (l : List Char) : List Char := fixedArticleGo l.length l

/-- Whether the string contains the stage-1 trigger `<a\s+href="/`. -/
def hasLinkStart : List Char → Bool
  | [] => false
  | c :: rest => (linkStartMatch (c :: rest)).isSome || hasLinkStart rest

/-- The `(\w*/)*index.php\?` tail of the stage-2 capture (the stage is run
with minimal matching, so the star tries zero repetitions first; within a
segment the lazy `\w*` is forced deterministically because `\w` cannot
match '/').  The unescaped '.' of `index.php` matches any character.
`letterOrNum` abstracts Qt's Unicode-aware `\w` base class
(`QChar::isLetterOrNumber`/`isMark`); '_' is added explicitly. -/
def idxPhpTail (letterOrNum : Char → Bool) : Nat → List Char → Option (List Char × List Char)
  | 0, _ => none
  | fuel + 1, l =>
    match l with
    | 'i' :: 'n' :: 'd' :: 'e' :: 'x' :: c :: 'p' :: 'h' :: 'p' :: '?' :: rest =>
        some ('i' :: 'n' :: 'd' :: 'e' :: 'x' :: c :: 'p' :: 'h' :: 'p' :: '?' :: [], rest)
    | _ =>
      let wrun := l.takeWhile (fun c => letterOrNum c || c = '_')
      match l.drop wrun.length with
      | '/' :: rest2 =>
          (idxPhpTail letterOrNum fuel rest2).map (fun pr => (wrun ++ '/' :: pr.1, pr.2))
      | _ => none

/-- Matcher for the stage-2 trigger `<a\shref="(/(\w*/)*index.php\?)` at
the start of the list: returns the capture (which starts at the '/') and
the remainder.  `wsC` abstracts the `\s` class of the `Qt4x5::Regex`
wrapper (whose implementation is outside these sources). -/
def indexPhpMatch (letterOrNum : Char → Bool) (wsC : Char → Bool) (l : List Char) :
    Option (List Char × List Char) :=
  match l with
  | '<' :: 'a' :: c :: rest =>
    if wsC c && startsWithChars ("href=\"/").data rest then
      let rest2 := rest.drop 7
      (idxPhpTail letterOrNum rest2.length rest2).map (fun pr => ('/' :: pr.1, pr.2))
    else none
  | _ => none

/-- The index.php-absolutization stage: each match is replaced by
`<a href="` + `wikiUrl.toString()` + the capture, scanning continuing
after the replacement. -/
def absIndexPhpGo (letterOrNum : Char → Bool) (wsC : Char → Bool)
    (urlStr : List Char) : Nat → List Char → List Char
  | 0, l => l
  | _ + 1, [] => []
  | fuel + 1, c :: rest =>
    match indexPhpMatch letterOrNum wsC (c :: rest) with
    | some (cap, r) =>
        ("<a href=\"").data ++ urlStr ++ cap ++ absIndexPhpGo letterOrNum wsC urlStr fuel r
    | none => c :: absIndexPhpGo letterOrNum wsC urlStr fuel rest

/-- The index.php-absolutization stage of `processArticle`. -/
def absIndexPhpStage (letterOrNum : Char → Bool) (wsC : Char → Bool)
    (urlStr l : List Char) : List Char :=
  absIndexPhpGo letterOrNum wsC urlStr l.length l

/-- Whether the string contains the stage-2 trigger anywhere. -/
def hasIndexPhpTrig (letterOrNum : Char → Bool) (wsC : Char → Bool) : List Char → Bool
  | [] => false
  | c :: rest =>
      (indexPhpMatch letterOrNum wsC (c :: rest)).isSome ||
        hasIndexPhpTrig letterOrNum wsC rest

/-- The offset of the first case-insensitive occurrence of `</audio>`. -/
def findCloseAudio (low : Char → Char) : List Char → Option Nat
  | [] => none
  | c :: rest =>
      if startsWithCI low ("</audio>").data (c :: rest) then some 0
      else (findCloseAudio low rest).map (fun k => k + 1)

/-- Matcher for reg1 `<audio\s.+</audio>` (case-insensitive, minimal) at
the start of the list: `<audio`, one whitespace, a shortest nonempty run
of arbitrary characters, then `</audio>`; returns the whole matched tag
and the remainder. -/
def audioMatchAt (low : Char → Char) (l : List Char) : Option (List Char × List Char) :=
  if startsWithCI low ("<audio").data l then
    match l.drop 6 with
    | c :: rest =>
      if isQtWs c then
        match findCloseAudio low (rest.drop 1) with
        | none => none
        | some k0 =>
            some (l.take (6 + 1 + (k0 + 1) + 8), l.drop (6 + 1 + (k0 + 1) + 8))
      else none
    | [] => none
  else none

/-- Matcher for reg2 `<source\s+src="([^"]+)` (case-insensitive) at the
start of the list: returns the captured nonempty run of non-quote
characters. -/
def sourceMatchAt (low : Char → Char) (l : List Char) : Option (List Char) :=
  if startsWithCI low ("<source").data l then
    let rest := l.drop 7
    let ws := rest.takeWhile isQtWs
    if ws.isEmpty then none
    else
      let rest2 := rest.drop ws.length
      if startsWithCI low ("src=\"").data rest2 then
        let ref := (rest2.drop 5).takeWhile (fun x => x != '"')
        if ref.isEmpty then none else some ref
      else none
  else none

/-- The first reg2 capture inside a tag (`reg2.indexIn(tag)`). -/
def sourceRefIn (low : Char → Char) : List Char → Option (List Char)
  | [] => none
  | c :: rest =>
    match sourceMatchAt low (c :: rest) with
    | some ref => some ref
    | none => sourceRefIn low rest

/-- The replacement built for one audio tag: a play link for the captured
source reference. -/
def audioUrlOf (ref : List Char) : List Char :=
  ("<a href=\"").data ++ ref ++
    ("\"><img src=\"qrcx://localhost/icons/playsound.png\" border=\"0\" align=\"absmiddle\" alt=\"Play\"/></a>").data

/-- The audio-tag-extraction stage of `processArticle`: find each audio
tag (reg1); when it contains a source element (reg2), replace the tag by
the play link; the loop then advances `pos` by one only, so all but the
first character of the replacement (or of an unreplaced tag) are scanned
again. -/
def audioStageGo (low : Char → Char) : Nat → List Char → List Char
  | 0, l => l
  | _ + 1, [] => []
  | fuel + 1, c :: rest =>
    match audioMatchAt low (c :: rest) with
    | some (tag, after) =>
      match sourceRefIn low tag with
      | some ref =>
        match audioUrlOf ref with
        | [] => audioStageGo low fuel after
        | rc :: rtail => rc :: audioStageGo low fuel (rtail ++ after)
      | none => c :: audioStageGo low fuel rest
    | none => c :: audioStageGo low fuel rest

/-- The audio-tag-extraction stage of `processArticle`. -/
def audioStage (low : Char → Char) (l : List Char) : List Char :=
  audioStageGo low l.length l

/-- Whether the string contains a reg1 audio-tag match anywhere. -/
def hasAudioTrig (low : Char → Char) : List Char → Bool
  | [] => false
  | c :: rest => (audioMatchAt low (c :: rest)).isSome || hasAudioTrig low rest

/-- Matcher for `<a\s+href="[^/:\">#]+` (the Qt 5 implementation of
`underscoresToSpacesInLinks` uses QRegularExpression, whose default `\s`
is the ASCII PCRE class) at the start of the list: returns the verbatim
opening `<a` + whitespace + `href="`, the nonempty link-text run, and the
remainder. -/
def linkTextMatch (l : List Char) : Option (List Char × List Char × List Char) :=
  match l with
  | '<' :: 'a' :: rest =>
    let ws := rest.takeWhile isPcreWs
    if ws.isEmpty then none
    else
      let rest2 := rest.drop ws.length
      if startsWithChars ("href=\"").data rest2 then
        let run := (rest2.drop 6).takeWhile
          (fun x => !(x == '/' || x == ':' || x == '"' || x == '>' || x == '#'))
        if run.isEmpty then none
        else some ('<' :: 'a' :: (ws ++ ("href=\"").data), run, (rest2.drop 6).drop run.length)
      else none
  | _ => none

/-- The underscore-to-space stage `underscoresToSpacesInLinks`: within
each matched region, every '_' becomes ' ' in place (the opening holds no
underscores); matches are visited left to right, continuing after each
match. -/
def underscoreStageGo : Nat → List Char → List Char
  | 0, l => l
  | _ + 1, [] => []
  | fuel + 1, c :: rest =>
    match linkTextMatch (c :: rest) with
    | some (pre, run, after) =>
        pre ++ run.map (fun x => if x = '_' then ' ' else x) ++ underscoreStageGo fuel after
    | none => c :: underscoreStageGo fuel rest

/-- The underscore-to-space stage of `processArticle`. -/
def underscoreStage (l : List Char) : List Char := underscoreStageGo l.length l

/-- Whether the string contains an `underscoresToSpacesInLinks` match. -/
def hasLinkTextTrig : List Char → Bool
  | [] => false
  | c :: rest => (linkTextMatch (c :: rest)).isSome || hasLinkTextTrig rest

/-- Backtracking search for the stage-7 capture
`([^:/\"]*file%3A[^/\"]+\")` starting from prefix length `k` and counting
down (the greedy `[^:/\"]*` tries the longest prefix first): the capture
needs `file%3A` (case-insensitively) at the prefix's end, followed by a
nonempty run of characters other than '/' and '"', closed by '"'.
Returns the capture and the remainder. -/
def fileCapAt (low : Char → Char) (l : List Char) (k : Nat) :
    Option (List Char × List Char) :=
  let hit :=
    if startsWithCI low ("file%3A").data (l.drop k) then
      let rest := l.drop (k + 7)
      let run := rest.takeWhile (fun x => !(x == '/' || x == '"'))
      if !run.isEmpty && startsWithChars (['"'] : List Char) (rest.drop run.length) then
        some (l.take (k + 7 + run.length + 1), l.drop (k + 7 + run.length + 1))
      else none
    else none
  match hit with
  | some r => some r
  | none =>
    match k with
    | 0 => none
    | k2 + 1 => fileCapAt low l k2

/-- Matcher for the stage-7 trigger
`<a\s+href="([^:/\"]*file%3A[^/\"]+\")` (case-insensitive) at the start of
the list: returns the capture and the remainder.  `wsC` abstracts the
`\s` class of the `Qt4x5::Regex` wrapper. -/
def fileLinkMatch (low : Char → Char) (wsC : Char → Bool) (l : List Char) :
    Option (List Char × List Char) :=
  match l with
  | '<' :: a :: rest =>
    if charCI low 'a' a then
      let ws := rest.takeWhile wsC
      if ws.isEmpty then none
      else
        let rest2 := rest.drop ws.length
        if startsWithCI low ("href=\"").data rest2 then
          let body := rest2.drop 6
          let maxRun := body.takeWhile (fun x => !(x == ':' || x == '/' || x == '"'))
          fileCapAt low body maxRun.length
        else none
    else none
  | _ => none

/-- The file-link-rewriting stage: each match is replaced by
`<a href="` + the dictionary url + `/index.php?title=` + the capture,
scanning continuing after the replacement. -/
def fileLinkGo (low : Char → Char) (wsC : Char → Bool) (urlStr : List Char) :
    Nat → List Char → List Char
  | 0, l => l
  | _ + 1, [] => []
  | fuel + 1, c :: rest =>
    match fileLinkMatch low wsC (c :: rest) with
    | some (cap, r) =>
        ("<a href=\"").data ++ urlStr ++ ("/index.php?title=").data ++ cap ++
          fileLinkGo low wsC urlStr fuel r
    | none => c :: fileLinkGo low wsC urlStr fuel rest

/-- The file-link-rewriting stage of `processArticle`. -/
def fileLinkStage (low : Char → Char) (wsC : Char → Bool) (urlStr l : List Char) :
    List Char :=
  fileLinkGo low wsC urlStr l.length l

/-- Whether the string contains a stage-7 match anywhere. -/
def hasFileLinkTrig (low : Char → Char) (wsC : Char → Bool) : List Char → Bool
  | [] => false
  | c :: rest =>
      (fileLinkMatch low wsC (c :: rest)).isSome || hasFileLinkTrig low wsC rest

lemma stripWikiGo_no_trig :
    ∀ (l : List Char), hasWikiTrig l = false → ∀ fuel, stripWikiGo fuel l = l := by
  intro l
  induction l with
  | nil => intro _ fuel; cases fuel <;> rfl
  | cons c rest ih =>
    intro h fuel
    have h2 : (wikiPatAt (c :: rest)).isSome = false ∧ hasWikiTrig rest = false := by
      simpa [hasWikiTrig] using h
    have hpat : wikiPatAt (c :: rest) = none := by
      cases hp : wikiPatAt (c :: rest) with
      | none => rfl
      | some r => rw [hp] at h2; simp at h2
    cases fuel with
    | zero => rfl
    | succ n => simp [stripWikiGo, hpat, ih h2.2 n]

lemma replaceSubGo_no_sub (pat rep : List Char) :
    ∀ (s : List Char), containsSubChars pat s = false →
      ∀ fuel, replaceSubGo pat rep fuel s = s := by
  intro s
  induction s with
  | nil => intro _ fuel; cases fuel <;> rfl
  | cons c rest ih =>
    intro h fuel
    have h2 : startsWithChars pat (c :: rest) = false ∧
        containsSubChars pat rest = false := by
      simpa [containsSubChars] using h
    cases fuel with
    | zero => rfl
    | succ n => simp [replaceSubGo, h2.1, ih h2.2 n]

lemma fixedArticleGo_no_trig :
    ∀ l : List Char, hasLinkStart l = false → ∀ fuel, fixedArticleGo fuel l = l := by
  intro l
  induction l with
  | nil => intro _ fuel; cases fuel <;> rfl
  | cons c rest ih =>
    intro h fuel
    have h2 : (linkStartMatch (c :: rest)).isSome = false ∧ hasLinkStart rest = false := by
      simpa [hasLinkStart] using h
    have hpat : linkStartMatch (c :: rest) = none := by
      cases hp : linkStartMatch (c :: rest) with
      | none => rfl
      | some r => rw [hp] at h2; simp at h2
    cases fuel with
    | zero => rfl
    | succ n => simp [fixedArticleGo, hpat, ih h2.2 n]

lemma absIndexPhpGo_no_trig (letterOrNum : Char → Bool) (wsC : Char → Bool)
    (urlStr : List Char) :
    ∀ l : List Char, hasIndexPhpTrig letterOrNum wsC l = false →
      ∀ fuel, absIndexPhpGo letterOrNum wsC urlStr fuel l = l := by
  intro l
  induction l with
  | nil => intro _ fuel; cases fuel <;> rfl
  | cons c rest ih =>
    intro h fuel
    have h2 : (indexPhpMatch letterOrNum wsC (c :: rest)).isSome = false ∧
        hasIndexPhpTrig letterOrNum wsC rest = false := by
      simpa [hasIndexPhpTrig] using h
    have hpat : indexPhpMatch letterOrNum wsC (c :: rest) = none := by
      cases hp : indexPhpMatch letterOrNum wsC (c :: rest) with
      | none => rfl
      | some r => rw [hp] at h2; simp at h2
    cases fuel with
    | zero => rfl
    | succ n => simp [absIndexPhpGo, hpat, ih h2.2 n]

lemma audioStageGo_no_trig (low : Char → Char) :
    ∀ l : List Char, hasAudioTrig low l = false →
      ∀ fuel, audioStageGo low fuel l = l := by
  intro l
  induction l with
  | nil => intro _ fuel; cases fuel <;> rfl
  | cons c rest ih =>
    intro h fuel
    have h2 : (audioMatchAt low (c :: rest)).isSome = false ∧
        hasAudioTrig low rest = false := by
      simpa [hasAudioTrig] using h
    have hpat : audioMatchAt low (c :: rest) = none := by
      cases hp : audioMatchAt low (c :: rest) with
      | none => rfl
      | some r => rw [hp] at h2; simp at h2
    cases fuel with
    | zero => rfl
    | succ n => simp [audioStageGo, hpat, ih h2.2 n]

lemma underscoreStageGo_no_trig :
    ∀ l : List Char, hasLinkTextTrig l = false →
      ∀ fuel, underscoreStageGo fuel l = l := by
  intro l
  induction l with
  | nil => intro _ fuel; cases fuel <;> rfl
  | cons c rest ih =>
    intro h fuel
    have h2 : (linkTextMatch (c :: rest)).isSome = false ∧
        hasLinkTextTrig rest = false := by
      simpa [hasLinkTextTrig] using h
    have hpat : linkTextMatch (c :: rest) = none := by
      cases hp : linkTextMatch (c :: rest) with
      | none => rfl
      | some r => rw [hp] at h2; simp at h2
    cases fuel with
    | zero => rfl
    | succ n => simp [underscoreStageGo, hpat, ih h2.2 n]

lemma fileLinkGo_no_trig (low : Char → Char) (wsC : Char → Bool) (urlStr : List Char) :
    ∀ l : List Char, hasFileLinkTrig low wsC l = false →
      ∀ fuel, fileLinkGo low wsC urlStr fuel l = l := by
  intro l
  induction l with
  | nil => intro _ fuel; cases fuel <;> rfl
  | cons c rest ih =>
    intro h fuel
    have h2 : (fileLinkMatch low wsC (c :: rest)).isSome = false ∧
        hasFileLinkTrig low wsC rest = false := by
      simpa [hasFileLinkTrig] using h
    have hpat : fileLinkMatch low wsC (c :: rest) = none := by
      cases hp : fileLinkMatch low wsC (c :: rest) with
      | none => rfl
      | some r => rw [hp] at h2; simp at h2
    cases fuel with
    | zero => rfl
    | succ n => simp [fileLinkGo, hpat, ih h2.2 n]

/-- Configuration of the plain `MediaWikiArticleRequest` (and of the
`MediaWikiArticleRequest` in the timing-instrumented variant): no redirect
link distinction, no preferable suffix; bodies are kept verbatim by the
abstract rewriter. -/
def plainCfg : ReqConfig := ⟨fun _ => none, none, fun b => b⟩

/-- A sample `RedirectingArticleRequest` configuration: the body "stub"
contains the distinctive redirect link with target word "Target". -/
def redirectCfg : ReqConfig :=
  ⟨fun b => if b = "stub" then some "Target" else none, none, fun b => b⟩

lemma handleOutcome_text_accept (cfg : ReqConfig) (a : DrainAcc) (rid : Nat)
    (b : String) (hfl : cfg.findLink b = none) (hrep : a.replacements = []) :
    handleOutcome cfg a rid (Outcome.text b) =
      ({ a with buffer := a.buffer ++ [cfg.rewriteBody b] }, none) := by
  obtain ⟨buf, e, nid, reps⟩ := a
  obtain rfl : reps = [] := hrep
  simp [handleOutcome, hfl]

lemma handleOutcome_redirect (cfg : ReqConfig) (a : DrainAcc) (rid : Nat)
    (b w : String) (hfl : cfg.findLink b = some w) :
    ∃ a2 : DrainAcc,
      handleOutcome cfg a rid (Outcome.text b)
        = (a2, some (⟨a.nextId, w, none⟩ : QEntry)) ∧
      a2.buffer = a.buffer ∧ a2.err = a.err := by
  obtain ⟨buf, e, nid, reps⟩ := a
  cases reps with
  | nil =>
    refine ⟨⟨buf, e, nid + 1, []⟩, ?_, rfl, rfl⟩
    simp [handleOutcome, hfl]
  | cons p t =>
    obtain ⟨fid, orig⟩ := p
    by_cases hf : fid = rid
    · refine ⟨⟨buf, e, nid + 1, t⟩, ?_, rfl, rfl⟩
      simp [handleOutcome, hfl, hf]
    · refine ⟨⟨buf, e, nid + 1, (fid, orig) :: t⟩, ?_, rfl, rfl⟩
      simp [handleOutcome, hfl, hf]

/-- Claim C2: a query whose body contains the redirect-link distinction
makes `preprocessArticle` prepend a new pending query for the link target
to the front of the remaining queue and return false, so the body is never
appended: the drain loop leaves the buffer (and the error string)
untouched for that entry, wherever in the batch the entry was when it
reached the front. -/
theorem redirect_discards_and_prepends (cfg : ReqConfig) (a : DrainAcc)
    (rest : List QEntry) (rid : Nat) (wd b w : String)
    (hfl : cfg.findLink b = some w) :
    ∃ a2 : DrainAcc,
      drainGo cfg a ((⟨rid, wd, some (Outcome.text b)⟩ : QEntry) :: rest)
        = (a2, (⟨a.nextId, w, none⟩ : QEntry) :: rest) ∧
      a2.buffer = a.buffer ∧ a2.err = a.err := by
  obtain ⟨a2, heq, hbuf, herr⟩ := handleOutcome_redirect cfg a rid b w hfl
  exact ⟨a2, by simp [drainGo, heq], hbuf, herr⟩

/-- Witness for claim C2 at a concrete input. -/
theorem redirect_discards_and_prepends_witness :
    redirectCfg.findLink "stub" = some "Target" ∧
    (∃ a2 : DrainAcc,
      drainGo redirectCfg (⟨["earlier"], none, 7, []⟩ : DrainAcc)
          ((⟨5, "w", some (Outcome.text "stub")⟩ : QEntry) ::
            [(⟨9, "later", none⟩ : QEntry)])
        = (a2, (⟨(⟨["earlier"], none, 7, []⟩ : DrainAcc).nextId, "Target", none⟩ : QEntry) ::
            [(⟨9, "later", none⟩ : QEntry)]) ∧
      a2.buffer = (⟨["earlier"], none, 7, []⟩ : DrainAcc).buffer ∧
      a2.err = (⟨["earlier"], none, 7, []⟩ : DrainAcc).err) :=
  ⟨by decide,
   redirect_discards_and_prepends redirectCfg ⟨["earlier"], none, 7, []⟩
     [⟨9, "later", none⟩] 5 "w" "stub" "Target" (by decide)⟩

/-- Claim C4 counterexample: a freshly constructed search request holds a
live transport reply and has not matured; calling `cancel()` on it releases
the transport reply immediately (the claim says the in-flight transport
request is not aborted before maturity), while finalization is indeed
deferred. -/
theorem debounce_cancel_counterexample :
    initWordSearch.netReply = true ∧
    initWordSearch.livedLongEnough = false ∧
    (wsCancel initWordSearch).netReply = false ∧
    (wsCancel initWordSearch).finished = false := by decide

/-- Claim C4 (amended): `cancel()` always releases the transport reply
immediately and records the cancellation intent; before maturity it leaves
the finished flag unchanged and defers finalization to the maturity timer
callback (which then finishes), while after maturity it finalizes
immediately. -/
theorem debounce_cancel_amended (s : WordSearchState) :
    (wsCancel s).netReply = false ∧
    (wsCancel s).isCancelling = true ∧
    (s.livedLongEnough = false → (wsCancel s).finished = s.finished ∧
       (wsTimerEvent (wsCancel s)).finished = true) ∧
    (s.livedLongEnough = true → (wsCancel s).finished = true) := by
  obtain ⟨nr, lle, ic, f, ms, e⟩ := s
  cases lle <;> simp [wsCancel, wsTimerEvent]

/-- Witness for the amended claim C4 at the freshly constructed request. -/
theorem debounce_cancel_amended_witness :
    initWordSearch.livedLongEnough = false ∧
    (wsCancel initWordSearch).netReply = false ∧
    (wsCancel initWordSearch).finished = initWordSearch.finished ∧
    (wsTimerEvent (wsCancel initWordSearch)).finished = true :=
  ⟨rfl, (debounce_cancel_amended initWordSearch).1,
   ((debounce_cancel_amended initWordSearch).2.2.1 rfl).1,
   ((debounce_cancel_amended initWordSearch).2.2.1 rfl).2⟩

/-- Claim C6: once a request is finished, later events change nothing:
`cancel()` is idempotent, a cancel of a finished request is a no-op, a
transport completion delivered to a finished request is ignored, and a
completion whose reply is not found in the queue is silently ignored. -/
theorem finished_request_events_noop (cfg : ReqConfig) (s t : ReqState)
    (rid : Nat) (o : Outcome)
    (hs : s.finished = true) (ht : markCompleted t.queue rid o = none) :
    mwCancel (mwCancel s) = mwCancel s ∧
    mwCancel s = s ∧
    requestFinished cfg s rid o = s ∧
    requestFinished cfg t rid o = t := by
  refine ⟨rfl, ?_, ?_, ?_⟩
  · obtain ⟨q, b, e, f, n, r⟩ := s
    obtain rfl : f = true := hs
    rfl
  · simp [requestFinished, hs]
  · by_cases hf : t.finished = true
    · simp [requestFinished, hf]
    · simp only [Bool.not_eq_true] at hf
      simp [requestFinished, hf, ht]

/-- Witness for claim C6 at concrete states. -/
theorem finished_request_events_noop_witness :
    (⟨[], [], none, true, 0, []⟩ : ReqState).finished = true ∧
    markCompleted emptyReqState.queue 0 Outcome.noTextNode = none ∧
    (mwCancel (mwCancel (⟨[], [], none, true, 0, []⟩ : ReqState))
        = mwCancel (⟨[], [], none, true, 0, []⟩ : ReqState) ∧
     mwCancel (⟨[], [], none, true, 0, []⟩ : ReqState)
        = (⟨[], [], none, true, 0, []⟩ : ReqState) ∧
     requestFinished plainCfg (⟨[], [], none, true, 0, []⟩ : ReqState) 0 Outcome.noTextNode
        = (⟨[], [], none, true, 0, []⟩ : ReqState) ∧
     requestFinished plainCfg emptyReqState 0 Outcome.noTextNode = emptyReqState) :=
  ⟨rfl, rfl,
   finished_request_events_noop plainCfg ⟨[], [], none, true, 0, []⟩ emptyReqState 0
     Outcome.noTextNode rfl rfl⟩

/-- Claim C7: draining an entry that completed with a transport failure or
an XML parse failure records the error string (overwriting any earlier
one — last error wins) and continues draining the remaining queue entries;
the failure aborts nothing and removes nothing from the buffer. -/
theorem per_query_failure_recorded_not_fatal (cfg : ReqConfig) (a : DrainAcc)
    (rid : Nat) (wd m : String) (ln col : Nat) (rest : List QEntry)
    (hrep : a.replacements = []) :
    drainGo cfg a ((⟨rid, wd, some (Outcome.transportError m)⟩ : QEntry) :: rest)
      = drainGo cfg { a with err := some m } rest ∧
    drainGo cfg a ((⟨rid, wd, some (Outcome.parseError m ln col)⟩ : QEntry) :: rest)
      = drainGo cfg { a with err := some (xmlParseErrorString m ln col) } rest := by
  obtain ⟨buf, e, nid, reps⟩ := a
  obtain rfl : reps = [] := hrep
  constructor <;> simp [drainGo, handleOutcome]

/-- Witness for claim C7: an earlier recorded error is overwritten by the
failure of the drained entry. -/
theorem per_query_failure_recorded_not_fatal_witness :
    (⟨[], some "old error", 3, []⟩ : DrainAcc).replacements = [] ∧
    drainGo plainCfg (⟨[], some "old error", 3, []⟩ : DrainAcc)
        ((⟨0, "w", some (Outcome.transportError "new error")⟩ : QEntry) :: [])
      = drainGo plainCfg { (⟨[], some "old error", 3, []⟩ : DrainAcc) with
          err := some "new error" } [] :=
  ⟨rfl,
   (per_query_failure_recorded_not_fatal plainCfg ⟨[], some "old error", 3, []⟩ 0 "w"
      "new error" 1 2 [] rfl).1⟩

/-- Claim C8 counterexample: re-applying the `/wiki/`-prefix-stripping
stage to its own output is not the identity: on
`<a href="/wiki//wiki/Foo"` the first pass yields `<a href="/wiki/Foo"`
and the second pass strips again. -/
theorem rewrite_stage_counterexample :
    stripWikiStage (stripWikiStage ("<a href=\"/wiki//wiki/Foo\"").data)
      ≠ stripWikiStage ("<a href=\"/wiki//wiki/Foo\"").data := by decide

/-- Claim C8 (amended): for each of the seven rewrite stages — link path
normalization, index.php absolutization, audio-tag extraction, both
scheme-qualification replacements, `/wiki/`-prefix stripping,
underscore-to-space in link text, and file-link rewriting — a pass over
text containing none of the stage's trigger patterns changes nothing; but
re-applying a stage to its own output is not byte-identical for every
input: the `/wiki/`-stripping stage rewrites an already-rewritten link
again when the stripped target itself begins with `/wiki/`. -/
theorem rewrite_stage_amended (low : Char → Char) (letterOrNum : Char → Bool)
    (wsC2 wsC7 : Char → Bool) (scheme wikiUrlStr dictUrlStr : List Char) :
    (∀ s : List Char, hasLinkStart s = false → fixedArticleStage s = s) ∧
    (∀ s : List Char, hasIndexPhpTrig letterOrNum wsC2 s = false →
        absIndexPhpStage letterOrNum wsC2 wikiUrlStr s = s) ∧
    (∀ s : List Char, hasAudioTrig low s = false → audioStage low s = s) ∧
    (∀ s : List Char, containsSubChars (" src=\"//").data s = false →
        addSchemeToSrcStage scheme s = s) ∧
    (∀ s : List Char, containsSubChars ("src=\"/").data s = false →
        fixRootSrcStage wikiUrlStr s = s) ∧
    (∀ s : List Char, hasWikiTrig s = false → stripWikiStage s = s) ∧
    (∀ s : List Char, hasLinkTextTrig s = false → underscoreStage s = s) ∧
    (∀ s : List Char, hasFileLinkTrig low wsC7 s = false →
        fileLinkStage low wsC7 dictUrlStr s = s) ∧
    stripWikiStage (stripWikiStage ("<a href=\"/wiki//wiki/Foo\"").data)
      ≠ stripWikiStage ("<a href=\"/wiki//wiki/Foo\"").data := by
  refine ⟨?_, ?_, ?_, ?_, ?_, ?_, ?_, ?_, by decide⟩
  · intro s h; exact fixedArticleGo_no_trig s h _
  · intro s h; exact absIndexPhpGo_no_trig letterOrNum wsC2 wikiUrlStr s h _
  · intro s h; exact audioStageGo_no_trig low s h _
  · intro s h; exact replaceSubGo_no_sub _ _ s h _
  · intro s h; exact replaceSubGo_no_sub _ _ s h _
  · intro s h; exact stripWikiGo_no_trig s h _
  · intro s h; exact underscoreStageGo_no_trig s h _
  · intro s h; exact fileLinkGo_no_trig low wsC7 dictUrlStr s h _

/-- Witness for the amended claim C8 at a concrete trigger-free input,
with Qt's character classes instantiated to their computable cores. -/
theorem rewrite_stage_amended_witness :
    hasLinkStart ("<p>hello</p>").data = false ∧
    hasAudioTrig Char.toLower ("<p>hello</p>").data = false ∧
    containsSubChars (" src=\"//").data ("<p>hello</p>").data = false ∧
    fixedArticleStage ("<p>hello</p>").data = ("<p>hello</p>").data ∧
    audioStage Char.toLower ("<p>hello</p>").data = ("<p>hello</p>").data ∧
    addSchemeToSrcStage ("https").data ("<p>hello</p>").data = ("<p>hello</p>").data :=
  ⟨by decide, by decide, by decide,
   (rewrite_stage_amended Char.toLower Char.isAlphanum isPcreWs isPcreWs
      ("https").data [] []).1 ("<p>hello</p>").data (by decide),
   (rewrite_stage_amended Char.toLower Char.isAlphanum isPcreWs isPcreWs
      ("https").data [] []).2.2.1 ("<p>hello</p>").data (by decide),
   (rewrite_stage_amended Char.toLower Char.isAlphanum isPcreWs isPcreWs
      ("https").data [] []).2.2.2.1 ("<p>hello</p>").data (by decide)⟩

/-- Claim C9 counterexample: a Forvo article request constructed with a
primary word and two alternates submits a single query (the alternates
loop is compiled out), not one query per word. -/
theorem forvo_alternates_counterexample :
    forvoInitReplies "a" ["b", "c"] = [("a", false)] ∧
    (forvoInitReplies "a" ["b", "c"]).length ≠ ("a" :: ["b", "c"]).length := by
  exact ⟨rfl, by decide⟩

/-- Claim C10: the suffix test of `SuffixAddingArticleRequest::doAddQuery`
computes `word.end() - preferableSuffix.size()`; for the word "Yoda" and
the configured suffix "/Legends" this iterator starts 4 characters before
`word.begin()` (a negative read index), so the comparison reads out of the
word's bounds — the well-definedness the claim asserts fails. -/
theorem suffix_check_out_of_bounds :
    suffixCheckUB "Yoda" "/Legends" = none ∧
    suffixCheckReadStart ("Yoda").length ("/Legends").length = -4 ∧
    suffixCheckReadStart ("Yoda").length ("/Legends").length < 0 := by decide

/-- The queue entry for reply id `i` in a run where the transport answers
the reply `i` with body `bodyOf i`: pending while `i`'s completion has not
been delivered (`i ∉ del`), completed afterwards. -/
def entryAt (wordOf bodyOf : Nat → String) (del : List Nat) (i : Nat) : QEntry :=
  ⟨i, wordOf i, if i ∈ del then some (Outcome.text (bodyOf i)) else none⟩

/-- A request whose queue holds one pending entry per reply id of `orig`,
in submission order, with nothing appended yet. -/
def initReqState (wordOf : Nat → String) (orig : List Nat) (nid : Nat) : ReqState :=
  ⟨orig.map (fun i => (⟨i, wordOf i, none⟩ : QEntry)), [], none, false, nid, []⟩

/-- The run invariant behind claim C1: after the completions of `del` have
been delivered, the submission list `orig` splits into the processed
prefix `done` (whose bodies form the buffer, in order) and the remaining
queue `rem`, whose front entry is still pending. -/
def ReqInv (cfg : ReqConfig) (wordOf bodyOf : Nat → String)
    (orig del : List Nat) (s : ReqState) : Prop :=
  ∃ done rem : List Nat, orig = done ++ rem ∧
    s.queue = rem.map (entryAt wordOf bodyOf del) ∧
    s.buffer = done.map (fun j => cfg.rewriteBody (bodyOf j)) ∧
    (∀ j ∈ done, j ∈ del) ∧
    (∀ h : rem ≠ [], rem.head h ∉ del) ∧
    s.replacements = [] ∧
    s.finished = (rem.isEmpty && !orig.isEmpty)

lemma isEmpty_map_eq {α β : Type} (f : α → β) (l : List α) :
    (l.map f).isEmpty = l.isEmpty := by
  cases l <;> rfl

lemma markCompleted_entryAt (wordOf bodyOf : Nat → String) (del : List Nat)
    (i : Nat) :
    ∀ rem : List Nat, i ∈ rem → rem.Nodup → i ∉ del →
    markCompleted (rem.map (entryAt wordOf bodyOf del)) i (Outcome.text (bodyOf i)) =
      some (rem.map (entryAt wordOf bodyOf (del ++ [i]))) := by
  intro rem
  induction rem with
  | nil => intro h; cases h
  | cons j t ih =>
    intro hmem hnd hdel
    by_cases hji : j = i
    · subst hji
      have hjt : j ∉ t := (List.nodup_cons.mp hnd).1
      have h1 : ({ entryAt wordOf bodyOf del j with
          result := some (Outcome.text (bodyOf j)) } : QEntry)
            = entryAt wordOf bodyOf (del ++ [j]) j := by
        simp [entryAt]
      have h2 : t.map (entryAt wordOf bodyOf del)
          = t.map (entryAt wordOf bodyOf (del ++ [j])) := by
        refine List.map_congr_left ?_
        intro x hx
        have hxj : x ≠ j := fun hh => hjt (hh ▸ hx)
        simp [entryAt, hxj]
      simp only [List.map_cons, markCompleted]
      rw [if_pos (show (entryAt wordOf bodyOf del j).id = j from rfl)]
      rw [h1, h2]
    · have hit : i ∈ t := by
        rcases List.mem_cons.mp hmem with h | h
        · exact absurd h.symm hji
        · exact h
      have hrec := ih hit (List.nodup_cons.mp hnd).2 hdel
      have hj' : entryAt wordOf bodyOf del j = entryAt wordOf bodyOf (del ++ [i]) j := by
        simp [entryAt, hji]
      simp only [List.map_cons, markCompleted]
      rw [if_neg (show ¬ (entryAt wordOf bodyOf del j).id = i from hji)]
      rw [hrec]
      simp only [Option.map_some']
      rw [hj']

lemma drainGo_entryAt (cfg : ReqConfig) (wordOf bodyOf : Nat → String)
    (hfl : ∀ n, cfg.findLink (bodyOf n) = none) (del : List Nat) :
    ∀ (rem : List Nat) (a : DrainAcc), a.replacements = [] →
    drainGo cfg a (rem.map (entryAt wordOf bodyOf del)) =
      ({ a with buffer := a.buffer ++ (rem.takeWhile (fun x => decide (x ∈ del))).map (fun x => cfg.rewriteBody (bodyOf x)) },
       (rem.dropWhile (fun x => decide (x ∈ del))).map (entryAt wordOf bodyOf del)) := by
  intro rem
  induction rem with
  | nil =>
    intro a ha
    simp [drainGo]
  | cons j t ih =>
    intro a ha
    by_cases hj : j ∈ del
    · have hres : (entryAt wordOf bodyOf del j).result
          = some (Outcome.text (bodyOf j)) := by
        simp [entryAt, hj]
      have hho := handleOutcome_text_accept cfg a
        (entryAt wordOf bodyOf del j).id (bodyOf j) (hfl j) ha
      have ha2 : ({ a with buffer := a.buffer ++ [cfg.rewriteBody (bodyOf j)] }
          : DrainAcc).replacements = [] := ha
      have hstep : drainGo cfg a ((entryAt wordOf bodyOf del j) ::
          t.map (entryAt wordOf bodyOf del))
            = drainGo cfg { a with buffer := a.buffer ++ [cfg.rewriteBody (bodyOf j)] }
                (t.map (entryAt wordOf bodyOf del)) := by
        simp [drainGo, hres, hho]
      rw [List.map_cons, hstep, ih _ ha2]
      simp [List.takeWhile_cons_of_pos, List.dropWhile_cons_of_pos, hj]
    · have hres : (entryAt wordOf bodyOf del j).result = none := by
        simp [entryAt, hj]
      have hstop : drainGo cfg a ((entryAt wordOf bodyOf del j) ::
          t.map (entryAt wordOf bodyOf del))
            = (a, (entryAt wordOf bodyOf del j) :: t.map (entryAt wordOf bodyOf del)) := by
        simp [drainGo, hres]
      rw [List.map_cons, hstop]
      simp [List.takeWhile_cons_of_neg, List.dropWhile_cons_of_neg, hj]

lemma ReqInv_init (cfg : ReqConfig) (wordOf bodyOf : Nat → String)
    (orig : List Nat) (nid : Nat) :
    ReqInv cfg wordOf bodyOf orig [] (initReqState wordOf orig nid) := by
  refine ⟨[], orig, rfl, ?_, rfl, by simp, ?_, rfl, ?_⟩
  · simp only [initReqState]
    refine List.map_congr_left ?_
    intro x _
    simp [entryAt]
  · intro h
    simp
  · simp [initReqState]

lemma ReqInv_step (cfg : ReqConfig) (wordOf bodyOf : Nat → String)
    (hfl : ∀ n, cfg.findLink (bodyOf n) = none)
    (orig del : List Nat) (s : ReqState) (i : Nat)
    (hnd : orig.Nodup) (hio : i ∈ orig) (hidel : i ∉ del)
    (hinv : ReqInv cfg wordOf bodyOf orig del s) :
    ReqInv cfg wordOf bodyOf orig (del ++ [i])
      (requestFinished cfg s i (Outcome.text (bodyOf i))) := by
  obtain ⟨done, rem, horig, hq, hb, hdone, hhead, hrepl, hfin⟩ := hinv
  have hone : orig.isEmpty = false := by
    cases orig with
    | nil => cases hio
    | cons x xs => rfl
  cases rem with
  | nil =>
    have hfin' : s.finished = true := by
      rw [hfin, hone]
      rfl
    have heq : requestFinished cfg s i (Outcome.text (bodyOf i)) = s := by
      simp [requestFinished, hfin']
    rw [heq]
    refine ⟨done, [], horig, by simpa using hq, hb,
      fun j hj => List.mem_append_left _ (hdone j hj), ?_, hrepl, by simpa [hone] using hfin⟩
    intro h
    exact absurd rfl h
  | cons r t =>
    have hfin' : s.finished = false := by
      rw [hfin]
      rfl
    have hit : i ∈ r :: t := by
      rcases List.mem_append.mp (horig ▸ hio) with h | h
      · exact absurd (hdone i h) hidel
      · exact h
    have htnd : (r :: t).Nodup := List.Nodup.of_append_right (horig ▸ hnd)
    have hmark := markCompleted_entryAt wordOf bodyOf del i (r :: t) hit htnd hidel
    have hacc : ((⟨s.buffer, s.err, s.nextId, s.replacements⟩ : DrainAcc)).replacements = [] :=
      hrepl
    have hdrain := drainGo_entryAt cfg wordOf bodyOf hfl (del ++ [i]) (r :: t)
      ⟨s.buffer, s.err, s.nextId, s.replacements⟩ hacc
    have heq : requestFinished cfg s i (Outcome.text (bodyOf i)) =
        { queue := ((r :: t).dropWhile (fun x => decide (x ∈ del ++ [i]))).map (entryAt wordOf bodyOf (del ++ [i])),
          buffer := s.buffer ++ ((r :: t).takeWhile (fun x => decide (x ∈ del ++ [i]))).map (fun x => cfg.rewriteBody (bodyOf x)),
          err := s.err,
          finished := (((r :: t).dropWhile (fun x => decide (x ∈ del ++ [i]))).map (entryAt wordOf bodyOf (del ++ [i]))).isEmpty,
          nextId := s.nextId,
          replacements := s.replacements } := by
      simp only [requestFinished, hfin', Bool.false_eq_true, if_false, hq, hmark, hdrain]
    rw [heq]
    refine ⟨done ++ (r :: t).takeWhile (fun x => decide (x ∈ del ++ [i])),
      (r :: t).dropWhile (fun x => decide (x ∈ del ++ [i])), ?_, rfl, ?_, ?_, ?_, hrepl, ?_⟩
    · rw [horig, List.append_assoc, List.takeWhile_append_dropWhile]
    · rw [hb, List.map_append]
    · intro j hj
      rcases List.mem_append.mp hj with h | h
      · exact List.mem_append_left _ (hdone j h)
      · have := List.mem_takeWhile_imp h
        simpa using this
    · intro h
      have hx := List.head_dropWhile_not (fun x => decide (x ∈ del ++ [i])) (r :: t) h
      simpa using hx
    · rw [isEmpty_map_eq, hone]
      simp

lemma ReqInv_run (cfg : ReqConfig) (wordOf bodyOf : Nat → String)
    (hfl : ∀ n, cfg.findLink (bodyOf n) = none)
    (orig : List Nat) (hnd : orig.Nodup) :
    ∀ (evs del : List Nat) (s : ReqState),
      ReqInv cfg wordOf bodyOf orig del s →
      (∀ j ∈ evs, j ∈ orig) →
      (del ++ evs).Nodup →
      ReqInv cfg wordOf bodyOf orig (del ++ evs)
        (evs.foldl (fun st j => requestFinished cfg st j (Outcome.text (bodyOf j))) s) := by
  intro evs
  induction evs with
  | nil =>
    intro del s hinv _ _
    simpa using hinv
  | cons i t ih =>
    intro del s hinv hmem hnd2
    have hidel : i ∉ del := by
      intro hin
      have hdisj := (List.nodup_append.mp hnd2).2.2
      exact hdisj hin (List.mem_cons_self i t)
    have hstep := ReqInv_step cfg wordOf bodyOf hfl orig del s i hnd
      (hmem i (List.mem_cons_self i t)) hidel hinv
    have hrec := ih (del ++ [i]) _ hstep
      (fun j hj => hmem j (List.mem_cons_of_mem i hj))
      (by simpa [List.append_assoc] using hnd2)
    simpa [List.append_assoc] using hrec

/-- Claim C1: for a request with any number of submitted queries (pairwise
distinct reply ids `orig`, submission order = list order), delivering the
transport completions in an arbitrary permuted order `perm` leaves the
buffer holding exactly the (rewritten) bodies in the original submission
order, and the request finished.  Each completion only marks its entry in
place; entries are processed strictly from the front of the queue. -/
theorem mediawiki_buffer_submission_order (cfg : ReqConfig)
    (wordOf bodyOf : Nat → String) (orig perm : List Nat) (nid : Nat)
    (hfl : ∀ n, cfg.findLink (bodyOf n) = none)
    (hnd : orig.Nodup) (hne : orig ≠ []) (hperm : perm.Perm orig) :
    ((perm.foldl (fun st j => requestFinished cfg st j (Outcome.text (bodyOf j)))
        (initReqState wordOf orig nid)).buffer
      = orig.map (fun j => cfg.rewriteBody (bodyOf j))) ∧
    ((perm.foldl (fun st j => requestFinished cfg st j (Outcome.text (bodyOf j)))
        (initReqState wordOf orig nid)).finished = true) := by
  have hrun := ReqInv_run cfg wordOf bodyOf hfl orig hnd perm []
    (initReqState wordOf orig nid) (ReqInv_init cfg wordOf bodyOf orig nid)
    (fun j hj => hperm.mem_iff.mp hj)
    (by simpa using hperm.nodup_iff.mpr hnd)
  simp only [List.nil_append] at hrun
  obtain ⟨done, rem, horig, hq, hb, hdone, hhead, hrepl, hfin⟩ := hrun
  have hrem : rem = [] := by
    cases rem with
    | nil => rfl
    | cons r t =>
      exfalso
      have hr : r ∈ orig := by
        rw [horig]
        exact List.mem_append_right done (List.mem_cons_self r t)
      exact hhead (by simp) (hperm.mem_iff.mpr hr)
  subst hrem
  have hdone2 : done = orig := by
    simpa using horig.symm
  have hone : orig.isEmpty = false := by
    cases horig2 : orig with
    | nil => exact absurd horig2 hne
    | cons x xs => rfl
  constructor
  · rw [hb, hdone2]
  · rw [hfin, hone]
    rfl

/-- Witness for claim C1: three queries completed in reversed order. -/
theorem mediawiki_buffer_submission_order_witness :
    ([2, 1, 0] : List Nat).Perm [0, 1, 2] ∧
    (([0, 1, 2] : List Nat).Nodup ∧ ([0, 1, 2] : List Nat) ≠ []) ∧
    ((([2, 1, 0] : List Nat).foldl
        (fun st j => requestFinished plainCfg st j (Outcome.text (toString j)))
        (initReqState (fun n => toString n) [0, 1, 2] 3)).buffer
      = ([0, 1, 2] : List Nat).map (fun j => plainCfg.rewriteBody (toString j))) ∧
    ((([2, 1, 0] : List Nat).foldl
        (fun st j => requestFinished plainCfg st j (Outcome.text (toString j)))
        (initReqState (fun n => toString n) [0, 1, 2] 3)).finished = true) :=
  ⟨by decide, ⟨by decide, by decide⟩,
   (mediawiki_buffer_submission_order plainCfg (fun n => toString n)
      (fun n => toString n) [0, 1, 2] [2, 1, 0] 3 (fun n => rfl) (by decide)
      (by decide) (by decide)).1,
   (mediawiki_buffer_submission_order plainCfg (fun n => toString n)
      (fun n => toString n) [0, 1, 2] [2, 1, 0] 3 (fun n => rfl) (by decide)
      (by decide) (by decide)).2⟩

/-- Claim C3: a `SuffixAddingArticleRequest` for a word `w` that does not
already end with the preferable suffix first issues the query for
`w ++ sfx` instead of `w` (recording the replacement).  If that
speculative query yields no usable body (here: a transport failure), a
pending query for the plain word is prepended and nothing of the failed
query reaches the buffer; once the plain word's body arrives, the buffer
holds exactly that body and the request finishes.  Conversely, when the
speculative query does find a body, it is appended and no fallback query
is created.  The no-text-node outcome (reply parsed but without a text
node) triggers the same fallback as the transport failure. -/
theorem suffix_fallback (flk : String → Option String) (rw2 : String → String)
    (w sfx m b : String)
    (hchk : suffixCheckUB w sfx = some false)
    (hflb : flk b = none) :
    mwArticleRequestInit ⟨flk, some sfx, rw2⟩ w [] =
      some (⟨[⟨0, w ++ sfx, none⟩], [], none, false, 1, [(0, w)]⟩ : ReqState) ∧
    requestFinished ⟨flk, some sfx, rw2⟩
        (⟨[⟨0, w ++ sfx, none⟩], [], none, false, 1, [(0, w)]⟩ : ReqState) 0
        (Outcome.transportError m) =
      (⟨[⟨1, w, none⟩], [], some m, false, 2, []⟩ : ReqState) ∧
    requestFinished ⟨flk, some sfx, rw2⟩
        (⟨[⟨1, w, none⟩], [], some m, false, 2, []⟩ : ReqState) 1
        (Outcome.text b) =
      (⟨[], [rw2 b], some m, true, 2, []⟩ : ReqState) ∧
    requestFinished ⟨flk, some sfx, rw2⟩
        (⟨[⟨0, w ++ sfx, none⟩], [], none, false, 1, [(0, w)]⟩ : ReqState) 0
        (Outcome.text b) =
      (⟨[], [rw2 b], none, true, 1, []⟩ : ReqState) ∧
    requestFinished ⟨flk, some sfx, rw2⟩
        (⟨[⟨0, w ++ sfx, none⟩], [], none, false, 1, [(0, w)]⟩ : ReqState) 0
        Outcome.noTextNode =
      (⟨[⟨1, w, none⟩], [], none, false, 2, []⟩ : ReqState) ∧
    requestFinished ⟨flk, some sfx, rw2⟩
        (⟨[⟨1, w, none⟩], [], none, false, 2, []⟩ : ReqState) 1
        (Outcome.text b) =
      (⟨[], [rw2 b], none, true, 2, []⟩ : ReqState) := by
  refine ⟨?_, ?_, ?_, ?_, ?_, ?_⟩
  · simp [mwArticleRequestInit, addQueries, doAddQuery, hchk, enqueue, emptyReqState]
  · simp [requestFinished, markCompleted, drainGo, handleOutcome]
  · simp [requestFinished, markCompleted, drainGo, handleOutcome, hflb]
  · simp [requestFinished, markCompleted, drainGo, handleOutcome, hflb]
  · simp [requestFinished, markCompleted, drainGo, handleOutcome]
  · simp [requestFinished, markCompleted, drainGo, handleOutcome, hflb]

/-- Witness for claim C3 at a concrete word, suffix, and bodies. -/
theorem suffix_fallback_witness :
    suffixCheckUB "Ab" "/L" = some false ∧
    mwArticleRequestInit ⟨fun _ => none, some "/L", fun x => x⟩ "Ab" [] =
      some (⟨[⟨0, "Ab" ++ "/L", none⟩], [], none, false, 1, [(0, "Ab")]⟩ : ReqState) ∧
    requestFinished ⟨fun _ => none, some "/L", fun x => x⟩
        (⟨[⟨0, "Ab" ++ "/L", none⟩], [], none, false, 1, [(0, "Ab")]⟩ : ReqState) 0
        (Outcome.transportError "E") =
      (⟨[⟨1, "Ab", none⟩], [], some "E", false, 2, []⟩ : ReqState) ∧
    requestFinished ⟨fun _ => none, some "/L", fun x => x⟩
        (⟨[⟨1, "Ab", none⟩], [], some "E", false, 2, []⟩ : ReqState) 1
        (Outcome.text "B") =
      (⟨[], [(fun x => x) "B"], some "E", true, 2, []⟩ : ReqState) ∧
    requestFinished ⟨fun _ => none, some "/L", fun x => x⟩
        (⟨[⟨0, "Ab" ++ "/L", none⟩], [], none, false, 1, [(0, "Ab")]⟩ : ReqState) 0
        Outcome.noTextNode =
      (⟨[⟨1, "Ab", none⟩], [], none, false, 2, []⟩ : ReqState) :=
  ⟨by decide,
   (suffix_fallback (fun _ => none) (fun x => x) "Ab" "/L" "E" "B" (by decide) rfl).1,
   (suffix_fallback (fun _ => none) (fun x => x) "Ab" "/L" "E" "B" (by decide) rfl).2.1,
   (suffix_fallback (fun _ => none) (fun x => x) "Ab" "/L" "E" "B" (by decide) rfl).2.2.1,
   (suffix_fallback (fun _ => none) (fun x => x) "Ab" "/L" "E" "B" (by decide) rfl).2.2.2.2.1⟩

lemma addQueries_noSuffix (cfg : ReqConfig) (h : cfg.preferableSuffix = none) :
    ∀ (ws : List String) (s : ReqState),
    ∃ t, addQueries cfg s ws = some t ∧
      t.queue.map QEntry.word = s.queue.map QEntry.word ++ ws ∧
      (∀ e ∈ t.queue, e ∈ s.queue ∨ e.result = none) ∧
      t.nextId = s.nextId + ws.length ∧
      t.buffer = s.buffer ∧ t.err = s.err ∧ t.finished = s.finished ∧
      t.replacements = s.replacements := by
  intro ws
  induction ws with
  | nil =>
    intro s
    exact ⟨s, rfl, by simp, fun e he => Or.inl he, by simp, rfl, rfl, rfl, rfl⟩
  | cons w ws ih =>
    intro s
    obtain ⟨t, ht, hw, hp, hn, hb, he, hf, hr⟩ := ih (enqueue s w)
    refine ⟨t, ?_, ?_, ?_, ?_, hb, he, hf, hr⟩
    · simp [addQueries, doAddQuery, h, ht]
    · rw [hw]
      simp [enqueue]
    · intro e hin
      rcases hp e hin with hmem | hres
      · have hmem2 : e ∈ s.queue ∨ e = (⟨s.nextId, w, none⟩ : QEntry) := by
          simpa [enqueue] using hmem
        rcases hmem2 with h1 | h2
        · exact Or.inl h1
        · right
          rw [h2]
      · exact Or.inr hres
    · rw [hn]
      simp [enqueue]
      omega

/-- Claim C9 (amended): a MediaWiki article request constructed from a
primary word and alternates enqueues and submits exactly one pending query
per word, primary first and then the alternates in order; the Forvo
article request, however, ignores the alternates and submits only the
primary word's query. -/
theorem queries_per_word_amended (cfg : ReqConfig)
    (h : cfg.preferableSuffix = none) (word : String) (alts : List String) :
    (∃ t, mwArticleRequestInit cfg word alts = some t ∧
       t.queue.map QEntry.word = word :: alts ∧
       (∀ e ∈ t.queue, e.result = none) ∧
       t.nextId = alts.length + 1 ∧
       t.finished = false) ∧
    forvoInitReplies word alts = [(word, false)] := by
  refine ⟨?_, rfl⟩
  obtain ⟨t, ht, hw, hp, hn, hb, he, hf, hr⟩ :=
    addQueries_noSuffix cfg h (word :: alts) emptyReqState
  refine ⟨t, ht, by simpa [emptyReqState] using hw, ?_,
    by simpa [emptyReqState] using hn, by simpa [emptyReqState] using hf⟩
  intro e he2
  rcases hp e he2 with h1 | h2
  · simp [emptyReqState] at h1
  · exact h2

/-- Witness for the amended claim C9 at a concrete word and alternates. -/
theorem queries_per_word_amended_witness :
    plainCfg.preferableSuffix = none ∧
    ((∃ t, mwArticleRequestInit plainCfg "cat" ["dog"] = some t ∧
       t.queue.map QEntry.word = "cat" :: ["dog"] ∧
       (∀ e ∈ t.queue, e.result = none) ∧
       t.nextId = (["dog"] : List String).length + 1 ∧
       t.finished = false) ∧
     forvoInitReplies "cat" ["dog"] = [("cat", false)]) :=
  ⟨rfl, queries_per_word_amended plainCfg rfl "cat" ["dog"]⟩

/-- Claim C5: a lookup word longer than 80 characters makes both
`getArticle` and `prefixMatch` return an already-finished instant result
with no data, no error string, and zero transport submissions; a word of
at most 80 characters yields a live request with at least one submission
(one per word for `getArticle`, one for `prefixMatch`). -/
theorem oversized_word_short_circuit (cfg : ReqConfig) (word : String)
    (alts : List String) (h : cfg.preferableSuffix = none) :
    (80 < word.length →
       mwGetArticle cfg word alts = some (ArticleHandle.instant false) ∧
       (ArticleHandle.instant false).finished = true ∧
       (ArticleHandle.instant false).hasAnyData = false ∧
       (ArticleHandle.instant false).errorString = none ∧
       (ArticleHandle.instant false).submissions = 0 ∧
       mwPrefixMatch word = SearchHandle.instantEmpty ∧
       SearchHandle.instantEmpty.finished = true ∧
       SearchHandle.instantEmpty.matchList = [] ∧
       SearchHandle.instantEmpty.errorString = none ∧
       SearchHandle.instantEmpty.submissions = 0) ∧
    (word.length ≤ 80 →
       (∃ t, mwGetArticle cfg word alts = some (ArticleHandle.request t) ∧
          t.finished = false ∧
          (ArticleHandle.request t).submissions = alts.length + 1 ∧
          0 < (ArticleHandle.request t).submissions) ∧
       mwPrefixMatch word = SearchHandle.request initWordSearch ∧
       (SearchHandle.request initWordSearch).finished = false ∧
       initWordSearch.netReply = true ∧
       (SearchHandle.request initWordSearch).submissions = 1) := by
  constructor
  · intro hlen
    refine ⟨?_, rfl, rfl, rfl, rfl, ?_, rfl, rfl, rfl, rfl⟩
    · simp [mwGetArticle, hlen]
    · simp [mwPrefixMatch, hlen]
  · intro hlen
    have hlen2 : ¬ 80 < word.length := by omega
    obtain ⟨t, ht, hw, hp, hn, hb, he, hf, hr⟩ :=
      addQueries_noSuffix cfg h (word :: alts) emptyReqState
    have hfin : t.finished = false := by simpa [emptyReqState] using hf
    have hnid : t.nextId = alts.length + 1 := by simpa [emptyReqState] using hn
    refine ⟨⟨t, ?_, hfin, ?_, ?_⟩, ?_, rfl, rfl, rfl⟩
    · simp [mwGetArticle, hlen2, mwArticleRequestInit, ht]
    · simpa [ArticleHandle.submissions] using hnid
    · simp [ArticleHandle.submissions, hnid]
    · simp [mwPrefixMatch, hlen2]

/-- Witness for claim C5 at a short word (live branch) — the oversized
branch hypothesis is unsatisfiable for this word, so the live branch is
exercised. -/
theorem oversized_word_short_circuit_witness :
    plainCfg.preferableSuffix = none ∧
    ("cat" : String).length ≤ 80 ∧
    ((∃ t, mwGetArticle plainCfg "cat" [] = some (ArticleHandle.request t) ∧
        t.finished = false ∧
        (ArticleHandle.request t).submissions = ([] : List String).length + 1 ∧
        0 < (ArticleHandle.request t).submissions) ∧
     mwPrefixMatch "cat" = SearchHandle.request initWordSearch ∧
     (SearchHandle.request initWordSearch).finished = false ∧
     initWordSearch.netReply = true ∧
     (SearchHandle.request initWordSearch).submissions = 1) :=
  ⟨rfl, by decide,
   (oversized_word_short_circuit plainCfg "cat" [] rfl).2 (by decide)⟩

end GoldenDict
